import Mathlib

/-!
Shallow embedding of `src/scope.rs` of the `moro-local` crate: a single-threaded
structured-concurrency scope (`Scope`) with a task registry (`FuturesUnordered`
behind a `RefCell`), a one-shot termination slot (`RefCell<Option<R>>`),
`spawn`, `terminate`, `poll_jobs` and `clear`, plus the per-task one-shot
result channel (`futures::channel::oneshot`) and the caller-facing handle.

Modelling decisions, each keyed to the source:

* A one-shot channel (`oneshot::channel()`, scope.rs line 127) is a `ChanSt`
  record: the value slot, whether the producer end has been dropped, and
  whether the consumer end has been dropped. `send` (line 131) stores the
  value only if the consumer is still alive and drops the producer either
  way; the wrapper ignores send's result (`let _ = tx.send(v)`).
* A spawned user future is a `UserFut` syntax tree: it can finish with a
  value, suspend once and continue, call `Scope::spawn` reentrantly, call
  `Scope::terminate` reentrantly, or panic (the `async { panic!() }` body
  pushed by `terminate`, line 105).
* CRUCIAL borrow semantics: `poll_jobs` evaluates
  `self.futures.borrow_mut().as_mut().poll_next(cx)` (line 47), so the
  `futures` `RefCell` stays exclusively borrowed for the entire duration of
  `poll_next`, including every poll of an inner task. A task that calls
  `Scope::spawn` therefore reaches `self.futures.borrow_mut()` (line 129)
  while that borrow is live and panics with `BorrowMutError`; a task that
  calls `Scope::terminate` first sets the termination slot (lines 100-102,
  a different `RefCell`, unborrowed at that point) and then panics inside
  the `self.spawn(async { panic!() })` call (line 105). Both are modelled
  as a `fault` outcome carrying the memory state at the moment of the panic.
* `FuturesUnordered::poll_next` is modelled as one deterministic pass over
  the registry list: each task is polled in order; the first task to finish
  is removed and `advanced` is reported; tasks that suspended are kept with
  their advanced continuations; if every task suspended the result is
  `pending`; an empty registry yields `isEmpty` (Rust `Ready(None)`).
* The registry loop of `poll_jobs` (lines 41-55) is structurally recursive
  in a fuel argument; since a reentrant spawn faults rather than growing the
  registry mid-poll, each `advanced` step shrinks the registry by one, so
  fuel `length + 1` is exact (`pollInnerF_fuel_irrel` proves the result is
  fuel-independent beyond that bound).
* Result values of user futures are `Nat` (the element type is irrelevant
  to the scope logic); the scope's termination type `R` stays a parameter.
-/

namespace MoroLocal

/-- State of one `futures::channel::oneshot` channel: the transferred value
(if a send succeeded), and whether each end has been dropped. -/
structure ChanSt where
  sent : Option Nat
  producerDropped : Bool
  consumerDropped : Bool
deriving DecidableEq

/-- A freshly created channel: nothing sent, both ends alive
(`oneshot::channel()`, scope.rs line 127). -/
def freshChan : ChanSt := ⟨none, false, false⟩

instance : Inhabited ChanSt := ⟨freshChan⟩

/-- `tx.send(v)` followed by dropping `tx` (scope.rs line 131): the value is
stored only if the consumer end is still alive; either way the producer end
is gone afterwards. The wrapper ignores the send's result (`let _ = ...`). -/
def sendStep (c : ChanSt) (v : Nat) : ChanSt :=
  if c.consumerDropped then { c with producerDropped := true }
  else { c with sent := some v, producerDropped := true }

/-- Dropping the producer end without sending (what happens to a pending
task's `tx` when `Scope::clear`, scope.rs line 66, drops the wrapper). -/
def dropProducer (c : ChanSt) : ChanSt := { c with producerDropped := true }

/-- Dropping the consumer end (the caller discards the `Spawned` handle). -/
def dropConsumer (c : ChanSt) : ChanSt := { c with consumerDropped := true }

/-- Syntax of a user-supplied future as far as the scope can observe it:
finish with a value, suspend and continue, reentrantly call `Scope::spawn`,
reentrantly call `Scope::terminate`, or panic (`async { panic!() }`,
scope.rs line 105). -/
inductive UserFut (R : Type) where
  | ret (v : Nat)
  | pendThen (k : UserFut R)
  | spawnThen (child : UserFut R) (k : UserFut R)
  | terminateThen (r : R) (k : UserFut R)
  | panicFut
deriving DecidableEq

/-- One registry entry: the wrapper `async move { let v = future.await;
let _ = tx.send(v); }` (scope.rs lines 129-132), i.e. the remaining user
future together with the index of the channel its result goes to. -/
structure Job (R : Type) where
  cid : Nat
  fut : UserFut R
deriving DecidableEq

/-- The `Scope` struct (scope.rs lines 8-18): the registry
(`futures: RefCell<Pin<Box<FuturesUnordered<...>>>>`), the termination slot
(`terminated: RefCell<Option<R>>`), and the arena of all one-shot channels
created so far (in Rust these live on the heap; indexing them here by
creation order makes them addressable). -/
structure ScopeSt (R : Type) where
  futures : List (Job R)
  terminated : Option R
  chans : List ChanSt
deriving DecidableEq

variable {R : Type}

/-- `Scope::new` (scope.rs lines 22-28): empty registry, empty slot. -/
def scopeNew : ScopeSt R := ⟨[], none, []⟩

/-- Read channel `i` of the arena (out-of-range reads never occur for
scopes built by the operations below; they default to a fresh channel). -/
def getC : List ChanSt → Nat → ChanSt
  | [], _ => freshChan
  | c :: _, 0 => c
  | _ :: cs, n + 1 => getC cs n

/-- Write channel `i` of the arena (no-op out of range). -/
def setC : List ChanSt → Nat → ChanSt → List ChanSt
  | [], _, _ => []
  | _ :: cs, 0, c => c :: cs
  | d :: cs, n + 1, c => d :: setC cs n c

/-- Perform the wrapper's completion send into channel `i`. -/
def sendTo (chans : List ChanSt) (i : Nat) (v : Nat) : List ChanSt :=
  setC chans i (sendStep (getC chans i) v)

/-- The scope state visible to a task while the registry list itself is
exclusively borrowed by `poll_next`: the termination slot and the channels. -/
structure Mem (R : Type) where
  terminated : Option R
  chans : List ChanSt
deriving DecidableEq

/-- Outcome of polling one registry entry once, inside `poll_next` (while
the `futures` `RefCell` is mutably borrowed by scope.rs line 47):

* `ret v` — the wrapper finishes: it sends `v` into its channel and is done.
* `pendThen k` — the task suspends; it stays in the registry as `k`.
* `spawnThen _ _` — the task calls `Scope::spawn`, which executes
  `self.futures.borrow_mut()` (line 129) while the registry is already
  mutably borrowed: `BorrowMutError` panic, nothing else happens.
* `terminateThen r _` — the task calls `Scope::terminate`: lines 100-102
  touch only the (unborrowed) `terminated` cell and set it if empty, then
  line 105 calls `self.spawn(async { panic!() })` which panics on the same
  reentrant `borrow_mut`; the slot update survives up to the panic.
* `panicFut` — the task body is `async { panic!() }` and panics. -/
inductive POut (R : Type) where
  | done
  | pend (k : UserFut R)
  | fault
deriving DecidableEq

/-- Poll one registry entry once; see `POut` for the case analysis. -/
def pollOne : UserFut R → Nat → Mem R → POut R × Mem R
  | .ret v, cid, m => (.done, { m with chans := sendTo m.chans cid v })
  | .pendThen k, _, m => (.pend k, m)
  | .spawnThen _ _, _, m => (.fault, m)
  | .terminateThen r _, _, m =>
      (.fault, if m.terminated.isNone then { m with terminated := some r } else m)
  | .panicFut, _, m => (.fault, m)

/-- Result of one `FuturesUnordered::poll_next` call (scope.rs line 47):
`isEmpty` is Rust's `Ready(None)`, `advanced` is `Ready(Some(()))` with the
surviving registry, `pending` is `Pending` with every task's advanced
continuation, `fault` is a panic propagating out of an inner task. -/
inductive PNRes (R : Type) where
  | isEmpty (m : Mem R)
  | pending (fs : List (Job R)) (m : Mem R)
  | advanced (fs : List (Job R)) (m : Mem R)
  | fault (m : Mem R)
deriving DecidableEq

/-- Walk the registry, polling each entry once; the first entry to finish is
removed and reported as `advanced`. `acc` holds the already-polled, still
suspended entries in reverse order. -/
def pollNextAux : List (Job R) → List (Job R) → Mem R → PNRes R
  | acc, [], m => .pending acc.reverse m
  | acc, t :: rest, m =>
      match pollOne t.fut t.cid m with
      | (.done, m') => .advanced (acc.reverse ++ rest) m'
      | (.pend k, m') => pollNextAux (⟨t.cid, k⟩ :: acc) rest m'
      | (.fault, m') => .fault m'

/-- One `FuturesUnordered::poll_next` call on the registry. -/
def pollNext (fs : List (Job R)) (m : Mem R) : PNRes R :=
  if fs.isEmpty then .isEmpty m else pollNextAux [] fs m

/-- Result of `Scope::poll_jobs` (scope.rs lines 40-56), with the scope
state threaded through: `pending` is Rust `Poll::Pending`, `readySome r` is
`Poll::Ready(Some(r))` (the scope terminated with `r`), `readyNone` is
`Poll::Ready(None)` (all jobs completed — quiescent), and `fault` is a
panic propagating out of the poll. -/
inductive PollJobsRes (R : Type) where
  | pending (s : ScopeSt R)
  | readySome (r : R) (s : ScopeSt R)
  | readyNone (s : ScopeSt R)
  | fault (s : ScopeSt R)
deriving DecidableEq

/-- The registry loop of `poll_jobs` (scope.rs lines 41-55) entered with the
termination slot already known empty: repeatedly `poll_next`; after every
completed task re-check the slot (line 49); on `continue 'outer` the top of
the loop takes the slot and returns `Ready(Some(r))` (lines 43-45). The
fuel argument only makes the recursion structural: every `advanced` step
removes one task and nothing can enter the registry mid-poll (a reentrant
spawn faults), so fuel `fs.length + 1` is never exhausted — see
`pollInnerF_fuel_irrel`. -/
def pollInnerF : Nat → List (Job R) → Mem R → PollJobsRes R
  | 0, fs, m => .fault ⟨fs, m.terminated, m.chans⟩
  | fuel + 1, fs, m =>
      match pollNext fs m with
      | .isEmpty m' => .readyNone ⟨[], m'.terminated, m'.chans⟩
      | .pending fs' m' => .pending ⟨fs', m'.terminated, m'.chans⟩
      | .fault m' => .fault ⟨fs, m'.terminated, m'.chans⟩
      | .advanced fs' m' =>
          match m'.terminated with
          | some r => .readySome r ⟨fs', none, m'.chans⟩
          | none => pollInnerF fuel fs' m'

/-- `Scope::poll_jobs` (scope.rs lines 40-56): first take the termination
slot and return `Ready(Some(r))` if it holds a value (lines 43-45, before
the registry is touched), otherwise run the registry loop. -/
def pollJobs (s : ScopeSt R) : PollJobsRes R :=
  match s.terminated with
  | some r => .readySome r { s with terminated := none }
  | none => pollInnerF (s.futures.length + 1) s.futures ⟨none, s.chans⟩

/-- `Scope::spawn` called from outside a poll (scope.rs lines 111-140): make
a fresh one-shot channel, push the sending wrapper into the registry, return
the handle consisting of the new channel's consumer index. -/
def spawn (s : ScopeSt R) (fut : UserFut R) : ScopeSt R × Nat :=
  ({ futures := s.futures ++ [⟨s.chans.length, fut⟩],
     terminated := s.terminated,
     chans := s.chans ++ [freshChan] }, s.chans.length)

/-- `Scope::terminate` called from outside a poll (scope.rs lines 96-106):
set the termination slot if it is still empty (first caller wins, lines
100-102), then push the never-to-run `async { panic!() }` task via `spawn`
(line 105) and hand back its handle. -/
def terminate (s : ScopeSt R) (v : R) : ScopeSt R × Nat :=
  spawn (if s.terminated.isNone then { s with terminated := some v } else s) .panicFut

/-- `Scope::clear` (scope.rs lines 65-67): drop every registry entry; each
dropped wrapper drops its channel's producer end without sending. -/
def clearChans (chans : List ChanSt) : List (Job R) → List ChanSt
  | [] => chans
  | t :: ts => clearChans (setC chans t.cid (dropProducer (getC chans t.cid))) ts

/-- `Scope::clear` on the whole scope state. -/
def clear (s : ScopeSt R) : ScopeSt R :=
  { s with futures := [], chans := clearChans s.chans s.futures }

/-- Result of polling a `Spawned` handle once, from outside a poll. -/
inductive RecvRes where
  | pending
  | val (v : Nat)
  | panicked
deriving DecidableEq

/-- Awaiting the handle returned by `spawn` (scope.rs lines 134-139):
`rx.await` yields the sent value if one arrived; if the producer end was
dropped without sending it yields `Err(Canceled)` and the handle executes
`panic!("unexpected error: ...")`; otherwise it suspends. -/
def handleAwait (s : ScopeSt R) (cid : Nat) : RecvRes :=
  match (getC s.chans cid).sent with
  | some v => .val v
  | none => if (getC s.chans cid).producerDropped then .panicked else .pending

/-- The caller discards a `Spawned` handle: the consumer end of its channel
is dropped. -/
def dropHandle (s : ScopeSt R) (cid : Nat) : ScopeSt R :=
  { s with chans := setC s.chans cid (dropConsumer (getC s.chans cid)) }

/-- Final outcome of driving the scope: what the external driver sees from
repeatedly invoking `poll_jobs` until it stops returning `Pending`. -/
inductive Outcome (R : Type) where
  | terminated (r : R) (s : ScopeSt R)
  | quiescent (s : ScopeSt R)
  | faulted (s : ScopeSt R)
  | outOfFuel (s : ScopeSt R)
deriving DecidableEq

/-- Drive the scope for at most `n` polls. -/
def drive : Nat → ScopeSt R → Outcome R
  | 0, s => .outOfFuel s
  | n + 1, s =>
      match pollJobs s with
      | .readySome r s' => .terminated r s'
      | .readyNone s' => .quiescent s'
      | .fault s' => .faulted s'
      | .pending s' => drive n s'

/-- Whether a driver outcome is a normal termination with a value. -/
def Outcome.isTerm : Outcome R → Bool
  | .terminated _ _ => true
  | _ => false

/-- Spawn one immediately-ready task per listed value, in order. -/
def spawnMany (s : ScopeSt R) : List Nat → ScopeSt R
  | [] => s
  | v :: vs => spawnMany (spawn s (.ret v)).1 vs

/-- The registry entries produced by spawning the listed values as
immediately-ready tasks, channel indices starting at `k`. -/
def retTasks (k : Nat) : List Nat → List (Job R)
  | [] => []
  | v :: vs => ⟨k, .ret v⟩ :: retTasks (k + 1) vs

/-- The channel arena after the completion sends of `retTasks k vs`. -/
def sendAll (chans : List ChanSt) (k : Nat) : List Nat → List ChanSt
  | [] => chans
  | v :: vs => sendAll (sendTo chans k v) (k + 1) vs

theorem length_setC (l : List ChanSt) (i : Nat) (c : ChanSt) :
    (setC l i c).length = l.length := by
  induction l generalizing i with
  | nil => rfl
  | cons d ds ih =>
    cases i with
    | zero => rfl
    | succ n => simp [setC, ih]

theorem getC_setC_self (l : List ChanSt) (i : Nat) (c : ChanSt) (h : i < l.length) :
    getC (setC l i c) i = c := by
  induction l generalizing i with
  | nil => simp at h
  | cons d ds ih =>
    cases i with
    | zero => rfl
    | succ n => exact ih n (by simpa using h)

theorem getC_setC_other (l : List ChanSt) (i j : Nat) (c : ChanSt) (h : i ≠ j) :
    getC (setC l i c) j = getC l j := by
  induction l generalizing i j with
  | nil => rfl
  | cons d ds ih =>
    cases i with
    | zero =>
      cases j with
      | zero => exact absurd rfl h
      | succ m => rfl
    | succ n =>
      cases j with
      | zero => rfl
      | succ m => exact ih n m (fun hc => h (by rw [hc]))

theorem getC_append_self (l : List ChanSt) (c : ChanSt) :
    getC (l ++ [c]) l.length = c := by
  induction l with
  | nil => rfl
  | cons d ds ih => simpa [getC] using ih

theorem getC_replicate (n i : Nat) (c : ChanSt) (h : i < n) :
    getC (List.replicate n c) i = c := by
  induction n generalizing i with
  | zero => omega
  | succ m ih =>
    cases i with
    | zero => rfl
    | succ j => exact ih j (by omega)

theorem length_sendTo (chans : List ChanSt) (i v : Nat) :
    (sendTo chans i v).length = chans.length := by
  simp [sendTo, length_setC]

theorem length_retTasks (vs : List Nat) :
    ∀ k, (retTasks (R := R) k vs).length = vs.length := by
  induction vs with
  | nil => intro k; rfl
  | cons v vs ih => intro k; simp [retTasks, ih]

theorem getC_sendAll_lt (vs : List Nat) :
    ∀ (chans : List ChanSt) (k i : Nat), i < k →
      getC (sendAll chans k vs) i = getC chans i := by
  induction vs with
  | nil => intro chans k i _; rfl
  | cons v vs ih =>
    intro chans k i h
    simp only [sendAll]
    rw [ih (sendTo chans k v) (k + 1) i (by omega)]
    simp [sendTo, getC_setC_other _ _ _ _ (by omega : k ≠ i)]

theorem getC_sendAll (vs : List Nat) :
    ∀ (chans : List ChanSt) (k j : Nat) (h : j < vs.length),
      k + vs.length ≤ chans.length →
      getC (sendAll chans k vs) (k + j) =
        sendStep (getC chans (k + j)) (vs.get ⟨j, h⟩) := by
  induction vs with
  | nil => intro chans k j h _; simp at h
  | cons v vs ih =>
    intro chans k j h hlen
    cases j with
    | zero =>
      simp only [sendAll]
      rw [getC_sendAll_lt vs (sendTo chans k v) (k + 1) (k + 0) (by omega)]
      simp only [sendTo, Nat.add_zero]
      rw [getC_setC_self _ _ _ (by simp at hlen ⊢; omega)]
      rfl
    | succ n =>
      simp only [sendAll]
      have hkn : k + (n + 1) = (k + 1) + n := by omega
      rw [hkn]
      rw [ih (sendTo chans k v) (k + 1) n (by simpa using h)
        (by rw [length_sendTo]; simp at hlen ⊢; omega)]
      simp only [sendTo]
      rw [getC_setC_other _ _ _ _ (by omega : k ≠ (k + 1) + n)]
      rfl

/-- Effect of `spawnMany` on an arbitrary starting scope. -/
theorem spawnMany_spec (vs : List Nat) :
    ∀ s : ScopeSt R,
      spawnMany s vs =
        ⟨s.futures ++ retTasks s.chans.length vs, s.terminated,
         s.chans ++ List.replicate vs.length freshChan⟩ := by
  induction vs with
  | nil => intro s; simp [spawnMany, retTasks]
  | cons v vs ih =>
    intro s
    simp only [spawnMany]
    rw [ih]
    simp [spawn, retTasks, List.replicate_succ]

theorem pollNextAux_advanced_len (fs : List (Job R)) :
    ∀ (acc : List (Job R)) (m : Mem R) (fs' : List (Job R)) (m' : Mem R),
      pollNextAux acc fs m = .advanced fs' m' →
      fs'.length + 1 = acc.length + fs.length := by
  induction fs with
  | nil =>
    intro acc m fs' m' h
    simp [pollNextAux] at h
  | cons t rest ih =>
    intro acc m fs' m' h
    rcases hp : pollOne t.fut t.cid m with ⟨out, m2⟩
    cases out with
    | done =>
      simp [pollNextAux, hp] at h
      obtain ⟨h1, -⟩ := h
      rw [← h1]
      simp
      omega
    | pend k =>
      simp [pollNextAux, hp] at h
      have := ih (⟨t.cid, k⟩ :: acc) m2 fs' m' h
      simp at this
      simp
      omega
    | fault =>
      simp [pollNextAux, hp] at h

theorem pollNext_advanced_len (fs fs' : List (Job R)) (m m' : Mem R)
    (h : pollNext fs m = .advanced fs' m') : fs'.length < fs.length := by
  unfold pollNext at h
  by_cases he : fs.isEmpty
  · simp [he] at h
  · simp [he] at h
    have := pollNextAux_advanced_len fs [] m fs' m' h
    simp at this
    omega

/-- The fuel given to `pollInnerF` is irrelevant beyond the registry length:
the registry only shrinks during a poll pass (a reentrant spawn faults
instead of growing it), so the loop of scope.rs lines 41-55 always stops
within `length + 1` rounds and the fuelled recursion is faithful. -/
theorem pollInnerF_fuel_irrel (f1 : Nat) :
    ∀ (f2 : Nat) (fs : List (Job R)) (m : Mem R),
      fs.length < f1 → fs.length < f2 →
      pollInnerF f1 fs m = pollInnerF f2 fs m := by
  induction f1 with
  | zero => intro f2 fs m h1 _; omega
  | succ g ih =>
    intro f2 fs m h1 h2
    cases f2 with
    | zero => omega
    | succ g2 =>
      cases hp : pollNext fs m with
      | isEmpty m' => simp [pollInnerF, hp]
      | pending fs' m' => simp [pollInnerF, hp]
      | fault m' => simp [pollInnerF, hp]
      | advanced fs' m' =>
        cases ht : m'.terminated with
        | some r => simp [pollInnerF, hp, ht]
        | none =>
          have hlen := pollNext_advanced_len fs fs' m m' hp
          simp only [pollInnerF, hp, ht]
          exact ih g2 fs' m' (by omega) (by omega)

/-- Running the registry loop on immediately-ready tasks: every task
completes in one pass each, every completion sends into its channel, and
the loop ends with `Ready(None)` on the emptied registry. -/
theorem pollInnerF_retTasks (vs : List Nat) :
    ∀ (fuel k : Nat) (chans : List ChanSt), vs.length < fuel →
      pollInnerF fuel (retTasks (R := R) k vs) ⟨none, chans⟩ =
        .readyNone ⟨[], none, sendAll chans k vs⟩ := by
  induction vs with
  | nil =>
    intro fuel k chans hf
    cases fuel with
    | zero => omega
    | succ g => simp [retTasks, pollInnerF, pollNext, sendAll]
  | cons v vs ih =>
    intro fuel k chans hf
    cases fuel with
    | zero => omega
    | succ g =>
      have hstep : pollNext (retTasks (R := R) k (v :: vs)) ⟨none, chans⟩ =
          .advanced (retTasks (k + 1) vs) ⟨none, sendTo chans k v⟩ := by
        simp [retTasks, pollNext, pollNextAux, pollOne]
      simp only [pollInnerF, hstep, sendAll]
      exact ih g (k + 1) (sendTo chans k v) (by simpa using hf)

/-- Awaiting a handle whose channel is still fresh suspends. -/
theorem handleAwait_fresh (s : ScopeSt R) (cid : Nat)
    (h : getC s.chans cid = freshChan) : handleAwait s cid = .pending := by
  unfold handleAwait
  rw [h]
  rfl

/-- Awaiting a handle whose channel holds a sent value yields that value. -/
theorem handleAwait_sent (s : ScopeSt R) (cid v : Nat)
    (h : (getC s.chans cid).sent = some v) : handleAwait s cid = .val v := by
  unfold handleAwait
  rw [h]

/-- C1: a spawned task that calls `terminate(7)` when polled does set the
termination slot (scope.rs lines 100-102 run on the unborrowed `terminated`
cell), but `terminate` then calls `self.spawn(async { panic!() })` (line
105), whose `self.futures.borrow_mut()` (line 129) panics because the
registry is still mutably borrowed by `poll_next` (line 47). The poll
therefore ends in a panic, so the scope's eventual outcome is the panic,
never `Terminated(7)` — refuting the claim's consequent that a task setting
the termination value leads to the outcome `Terminated(v)`. -/
theorem terminate_inside_poll_faults :
    pollJobs (spawn (scopeNew (R := Nat)) (.terminateThen 7 (.ret 0))).1 =
      .fault ⟨[⟨0, .terminateThen 7 (.ret 0)⟩], some 7, [freshChan]⟩ ∧
    Outcome.isTerm (drive 9 (spawn (scopeNew (R := Nat)) (.terminateThen 7 (.ret 0))).1) =
      false := by
  decide

/-- C2: calling `terminate(a)` then `terminate(b)` leaves the slot holding
`a` (the `is_none` guard of scope.rs lines 100-102 makes the second call a
silent no-op), and driving the scope afterwards yields the outcome
`Terminated(a)` with the slot consumed. -/
theorem terminate_first_value_wins (s : ScopeSt R) (a b : R) (n : Nat)
    (h : s.terminated = none) :
    (terminate (terminate s a).1 b).1.terminated = some a ∧
    drive (n + 1) (terminate (terminate s a).1 b).1 =
      .terminated a { (terminate (terminate s a).1 b).1 with terminated := none } := by
  have h1 : (terminate s a).1.terminated = some a := by
    simp [terminate, spawn, h]
  have h2 : (terminate (terminate s a).1 b).1.terminated = some a := by
    generalize hg : (terminate s a).1 = s1 at h1 ⊢
    simp [terminate, spawn, h1]
  exact ⟨h2, by simp [drive, pollJobs, h2]⟩

/-- C2 witness: `terminate 1` then `terminate 2` on a fresh scope ends in
`Terminated(1)`. -/
theorem terminate_first_value_wins_witness :
    (terminate (terminate (scopeNew (R := Nat)) 1).1 2).1.terminated = some 1 ∧
    drive 1 (terminate (terminate (scopeNew (R := Nat)) 1).1 2).1 =
      .terminated 1
        { (terminate (terminate (scopeNew (R := Nat)) 1).1 2).1 with terminated := none } :=
  terminate_first_value_wins scopeNew 1 2 0 rfl

/-- C3: spawning any list of immediately-ready tasks, no handle resolves
before the poll observes its completion (all handles suspend beforehand),
and driving the scope returns `Quiescent` with an emptied registry and every
handle resolved to exactly the value its task produced. -/
theorem spawn_all_ready_quiescent (vs : List Nat) (n : Nat) :
    (∀ j, j < vs.length →
      handleAwait (spawnMany (scopeNew (R := Nat)) vs) j = .pending) ∧
    ∃ s2, drive (n + 1) (spawnMany (scopeNew (R := Nat)) vs) = .quiescent s2 ∧
      s2.futures = [] ∧
      ∀ j (h : j < vs.length), handleAwait s2 j = .val (vs.get ⟨j, h⟩) := by
  have hs : spawnMany (scopeNew (R := Nat)) vs =
      ⟨retTasks 0 vs, none, List.replicate vs.length freshChan⟩ := by
    rw [spawnMany_spec]
    simp [scopeNew]
  constructor
  · intro j hj
    rw [hs]
    exact handleAwait_fresh _ j (getC_replicate vs.length j freshChan hj)
  · refine ⟨⟨[], none, sendAll (List.replicate vs.length freshChan) 0 vs⟩, ?_, rfl, ?_⟩
    · have hp : pollJobs (spawnMany (scopeNew (R := Nat)) vs) =
          .readyNone ⟨[], none, sendAll (List.replicate vs.length freshChan) 0 vs⟩ := by
        rw [hs]
        simp only [pollJobs]
        rw [length_retTasks]
        exact pollInnerF_retTasks vs (vs.length + 1) 0 _ (by omega)
      cases n <;> simp [drive, hp]
    · intro j hj
      have hg := getC_sendAll vs (List.replicate vs.length freshChan) 0 j hj
        (by simp)
      simp only [Nat.zero_add] at hg
      apply handleAwait_sent
      rw [hg, getC_replicate vs.length j freshChan hj]
      rfl

/-- C3 witness: spawning tasks returning 1, 2, 3 and driving to `Quiescent`
resolves the three handles to 1, 2 and 3 (summing to 6), none of them
resolved before the poll. -/
theorem spawn_all_ready_quiescent_witness :
    handleAwait (spawnMany (scopeNew (R := Nat)) [1, 2, 3]) 0 = .pending ∧
    ∃ s2, drive 1 (spawnMany (scopeNew (R := Nat)) [1, 2, 3]) = .quiescent s2 ∧
      s2.futures = [] ∧
      handleAwait s2 0 = .val 1 ∧ handleAwait s2 1 = .val 2 ∧ handleAwait s2 2 = .val 3 := by
  obtain ⟨h1, s2, h2, h3, h4⟩ := spawn_all_ready_quiescent [1, 2, 3] 0
  exact ⟨h1 0 (by decide), s2, h2, h3,
    h4 0 (by decide), h4 1 (by decide), h4 2 (by decide)⟩

/-- C4: a spawned task that calls `Scope::spawn` when polled panics: spawn's
`self.futures.borrow_mut()` (scope.rs line 129) runs while `poll_jobs` still
holds the registry's exclusive borrow for `poll_next` (line 47), which is a
`BorrowMutError` — the same fatal fault as genuine concurrent mutation, not
the claimed tolerated reentrant registry growth. -/
theorem spawn_inside_poll_faults :
    pollJobs (spawn (scopeNew (R := Nat)) (.spawnThen (.ret 1) (.ret 0))).1 =
      .fault ⟨[⟨0, .spawnThen (.ret 1) (.ret 0)⟩], none, [freshChan]⟩ := by
  decide

/-- C5: `terminate(v)` called with the slot empty pushes exactly one
never-polled `async { panic!() }` task into the registry and hands back its
handle; awaiting that handle suspends, the next `poll_jobs` returns
`Terminated(v)` without touching the registry or any channel, and the handle
still suspends afterwards — it never completes once the driver stops
polling after `Terminated`. -/
theorem terminate_handle_never_resolves (s : ScopeSt R) (v : R)
    (h : s.terminated = none) :
    (terminate s v).1.futures = s.futures ++ [⟨s.chans.length, .panicFut⟩] ∧
    (terminate s v).2 = s.chans.length ∧
    handleAwait (terminate s v).1 (terminate s v).2 = .pending ∧
    pollJobs (terminate s v).1 =
      .readySome v { (terminate s v).1 with terminated := none } ∧
    handleAwait { (terminate s v).1 with terminated := none } (terminate s v).2 =
      .pending := by
  have hterm : terminate s v =
      ({ futures := s.futures ++ [⟨s.chans.length, .panicFut⟩],
         terminated := some v,
         chans := s.chans ++ [freshChan] }, s.chans.length) := by
    simp [terminate, spawn, h]
  rw [hterm]
  refine ⟨rfl, rfl, ?_, by simp [pollJobs], ?_⟩ <;>
    simp [handleAwait, getC_append_self, freshChan]

/-- C5 witness: `terminate 5` on a fresh scope. -/
theorem terminate_handle_never_resolves_witness :
    handleAwait (terminate (scopeNew (R := Nat)) 5).1 (terminate (scopeNew (R := Nat)) 5).2 =
      .pending ∧
    pollJobs (terminate (scopeNew (R := Nat)) 5).1 =
      .readySome 5 { (terminate (scopeNew (R := Nat)) 5).1 with terminated := none } :=
  ⟨(terminate_handle_never_resolves (scopeNew (R := Nat)) 5 rfl).2.2.1,
   (terminate_handle_never_resolves (scopeNew (R := Nat)) 5 rfl).2.2.2.1⟩

/-- C6: a spawn handle first suspends; if the registry entry is cleared
before it completed (producer end dropped without sending) awaiting the
handle panics (`panic!("unexpected error: ...")`, scope.rs line 137) rather
than returning an error value; and when the task completes, the handle
yields exactly the value sent into its channel. -/
theorem handle_value_or_panic (fut : UserFut Nat) (v : Nat) :
    handleAwait (spawn (scopeNew (R := Nat)) fut).1 (spawn (scopeNew (R := Nat)) fut).2 =
      .pending ∧
    handleAwait (clear (spawn (scopeNew (R := Nat)) fut).1)
      (spawn (scopeNew (R := Nat)) fut).2 = .panicked ∧
    ∃ s2, pollJobs (spawn (scopeNew (R := Nat)) (.ret v)).1 = .readyNone s2 ∧
      handleAwait s2 (spawn (scopeNew (R := Nat)) (.ret v)).2 = .val v := by
  exact ⟨rfl, rfl, ⟨[], none, [⟨some v, true, false⟩]⟩, rfl, rfl⟩

/-- C7: if the handle's consumer end was already discarded, the completing
wrapper's `tx.send` fails and is ignored (`let _ =`, scope.rs line 131): the
task still completes normally, the poll ends `Quiescent` with no fault, and
nothing was stored in the channel. -/
theorem send_best_effort (v : Nat) :
    pollJobs (dropHandle (spawn (scopeNew (R := Nat)) (.ret v)).1
        (spawn (scopeNew (R := Nat)) (.ret v)).2) =
      .readyNone ⟨[], none, [⟨none, true, true⟩]⟩ := by
  rfl

/-- C8: with an empty registry (and no termination pending) `poll_jobs`
returns `Ready(None)` — quiescence, not overall completion: it may be
invoked again, and a job spawned in the meantime is then executed, its
handle resolving to the produced value. -/
theorem quiescent_not_final (s : ScopeSt R) (v : Nat)
    (h1 : s.futures = []) (h2 : s.terminated = none) :
    pollJobs s = .readyNone ⟨[], none, s.chans⟩ ∧
    ∃ s2, pollJobs (spawn (⟨[], none, s.chans⟩ : ScopeSt R) (.ret v)).1 =
        .readyNone s2 ∧
      handleAwait s2 (spawn (⟨[], none, s.chans⟩ : ScopeSt R) (.ret v)).2 = .val v := by
  constructor
  · simp [pollJobs, h1, h2, pollInnerF, pollNext]
  · refine ⟨⟨[], none, sendAll (s.chans ++ [freshChan]) s.chans.length [v]⟩, ?_, ?_⟩
    · have hret : [(⟨s.chans.length, .ret v⟩ : Job R)] =
          retTasks s.chans.length [v] := by
        simp [retTasks]
      simp only [pollJobs, spawn, hret]
      exact pollInnerF_retTasks [v] _ s.chans.length _ (by simp [length_retTasks])
    · have hg := getC_sendAll [v] (s.chans ++ [freshChan]) s.chans.length 0
        (by simp) (by simp)
      simp only [Nat.add_zero] at hg
      show handleAwait _ s.chans.length = _
      apply handleAwait_sent
      rw [hg, getC_append_self]
      rfl

/-- C8 witness: a scope that just went quiescent accepts and runs a new job. -/
theorem quiescent_not_final_witness :
    pollJobs (scopeNew (R := Nat)) =
      .readyNone ⟨[], none, (scopeNew (R := Nat)).chans⟩ ∧
    ∃ s2,
      pollJobs (spawn (⟨[], none, (scopeNew (R := Nat)).chans⟩ : ScopeSt Nat) (.ret 4)).1 =
        .readyNone s2 ∧
      handleAwait s2
          (spawn (⟨[], none, (scopeNew (R := Nat)).chans⟩ : ScopeSt Nat) (.ret 4)).2 =
        .val 4 :=
  quiescent_not_final scopeNew 4 rfl rfl

/-- C9: `clear` leaves the registry empty, is idempotent, and a subsequent
`poll_jobs` finds nothing to run and changes nothing — no previously pending
task makes progress and no send into the already-dropped channels happens. -/
theorem clear_empties_registry (s : ScopeSt R) (h : s.terminated = none) :
    (clear s).futures = [] ∧
    clear (clear s) = clear s ∧
    pollJobs (clear s) = .readyNone (clear s) := by
  refine ⟨rfl, ?_, ?_⟩
  · simp [clear, clearChans]
  · simp [pollJobs, clear, h, pollInnerF, pollNext]

/-- C9 witness: clearing a scope holding one still-suspended task. -/
theorem clear_empties_registry_witness :
    (clear (spawn (scopeNew (R := Nat)) (.pendThen (.ret 3))).1).futures = [] ∧
    clear (clear (spawn (scopeNew (R := Nat)) (.pendThen (.ret 3))).1) =
      clear (spawn (scopeNew (R := Nat)) (.pendThen (.ret 3))).1 ∧
    pollJobs (clear (spawn (scopeNew (R := Nat)) (.pendThen (.ret 3))).1) =
      .readyNone (clear (spawn (scopeNew (R := Nat)) (.pendThen (.ret 3))).1) :=
  clear_empties_registry (spawn (scopeNew (R := Nat)) (.pendThen (.ret 3))).1 rfl

/-- C10: every `terminate` call — including a later one whose value is
discarded because the slot is already set — pushes exactly one wrapped
`async { panic!() }` task into the registry (scope.rs line 105), growing it
by one; and that task faults if it is ever polled. -/
theorem terminate_always_pushes (s : ScopeSt R) (v : R) :
    (terminate s v).1.futures = s.futures ++ [⟨s.chans.length, .panicFut⟩] ∧
    (terminate s v).1.futures.length = s.futures.length + 1 ∧
    ∀ (c : Nat) (m : Mem R), pollOne (.panicFut : UserFut R) c m = (.fault, m) := by
  refine ⟨?_, ?_, fun c m => rfl⟩ <;>
    cases hs : s.terminated <;> simp [terminate, spawn, hs]

end MoroLocal
